import Mathlib

/-!
Shallow embedding of the region-based bump-pointer arena allocator in
`src/main.c`, together with proofs about its specification.

Modelling conventions:
* `uintptr_t` / `size_t` values are natural numbers; the C arithmetic on them
  is 64-bit and wraps, so every arithmetic step of the source is performed
  modulo `wordMod = 2 ^ 64` (`uadd`, `usub`) and the bitwise complement of the
  `align_up` macro is taken with respect to the 64-bit word (`lnot64`).
* The `next` pointer chain of `region_t` is represented by a `List Region`
  inside `Arena`: the head of the list is `arena_t.start` and the last element
  is `arena_t.current` (in the C code `current` is always the tail of the
  chain).  An empty list models `start == current == NULL`.
* `mmap` is modelled by passing the page address the OS would return as an
  explicit argument (`page`); `munmap` returns the released regions, so
  `arena_release` yields the list of regions it unmaps plus the new state.
-/

/-- The modulus of 64-bit machine arithmetic: `uintptr_t` and `size_t`
operations in the C source wrap modulo `2 ^ 64`. -/
def wordMod : Nat := 2 ^ 64

/-- The value of `sizeof(region_t)` on an LP64 platform: four 8-byte fields
(`next`, `cap`, `free`, `begin`). -/
def sizeof_region_t : Nat := 32

/-- Wrapping 64-bit addition, as performed by C on `uintptr_t`/`size_t`. -/
def uadd (a b : Nat) : Nat := (a + b) % wordMod

/-- Wrapping 64-bit subtraction, as performed by C on `uintptr_t`/`size_t`. -/
def usub (a b : Nat) : Nat := (a % wordMod + (wordMod - b % wordMod)) % wordMod

/-- The 64-bit bitwise complement `~x`. -/
def lnot64 (x : Nat) : Nat := (wordMod - 1) ^^^ (x % wordMod)

/-- The C macro
`#define align_up(addr, align) ((addr) + ((align - 1)) & ~((align - 1)))`.
By C precedence this parses as `((addr) + (align - 1)) & (~(align - 1))`,
computed in 64-bit arithmetic. -/
def align_up (addr align : Nat) : Nat :=
  uadd addr (usub align 1) &&& lnot64 (usub align 1)

/-- The bookkeeping fields of `struct region_t`.  The `next` pointer is not a
field here; the chain is modelled by the `List Region` inside `Arena`. -/
structure Region where
  /-- Field `size_t cap`: total size of memory managed by this region. -/
  cap : Nat
  /-- Field `uintptr_t free`: address of the current start of free space. -/
  free : Nat
  /-- Field `uintptr_t begin`: address of the beginning of managed memory. -/
  begin : Nat
  deriving DecidableEq

/-- The C function `region_init(region, cap, buf)`: sets `next = NULL`, `cap`, and
`free = begin = buf`. -/
def region_init (cap buf : Nat) : Region :=
  { cap := cap, free := buf, begin := buf }

/-- The C function `region_alloc(region, size, align)`: computes
`start = align_up(region->free, align)`, fails (returns `NULL`, no mutation)
when `start + size > region->begin + region->cap`, otherwise advances
`region->free` by `offset + size` where `offset = start - region->free`, and
returns `start`.  The returned pair is (result, region state after the
call). -/
def region_alloc (r : Region) (size align : Nat) : Option Nat × Region :=
  let start := align_up r.free align
  if (start + size) % wordMod > (r.begin + r.cap) % wordMod then
    (none, r)
  else
    let offset := usub start r.free
    (some start, { r with free := (r.free + offset + size) % wordMod })

/-- The C function `region_has_space(region, size, align)`: recomputes `start` exactly as
`region_alloc` does and reports whether the bound check passes.  It is a pure
predicate; the region is not mutated (the model takes `r` by value). -/
def region_has_space (r : Region) (size align : Nat) : Bool :=
  let start := align_up r.free align
  if (start + size) % wordMod > (r.begin + r.cap) % wordMod then false else true

/-- The C function `alloc_new_region(size)`: `mmap`s `size` bytes at address `page` (the
address chosen by the OS is passed explicitly), places the `region_t` header
at the start of the page, and initializes the region over the rest:
`start = page + sizeof(region_t)`, `offset = start - page`,
`region_init(region, size - offset, start)`. -/
def alloc_new_region (size page : Nat) : Region :=
  let start := uadd page sizeof_region_t
  let offset := usub start page
  region_init (usub size offset) start

/-- The C type `struct arena_t`.  `regions` is the chain reachable from `start` via
`next`; its last element is `current` (the C code keeps `current` at the tail
of the chain), and `regions = []` models `start == current == NULL`. -/
structure Arena where
  regions : List Region
  region_size : Nat
  region_count : Nat
  deriving DecidableEq

/-- The C function `arena_init(a, region_size)`: allocates one region (from page address
`page`) and makes it both `start` and `current`, with `region_count = 1`. -/
def arena_init (region_size page : Nat) : Arena :=
  { regions := [alloc_new_region region_size page]
    region_size := region_size
    region_count := 1 }

/-- The C function `arena_alloc(a, size, align)`.  `page` is the address `mmap` would return
if the growth path runs.  Mirrors the C control flow: `NULL` when
`a->current == NULL`; `NULL` when `size > a->region_size - sizeof(region_t)`
(a wrapping `size_t` subtraction); delegation to the current region when
`region_has_space` holds; otherwise one new region is linked in, `current`
moves to it, `region_count` is incremented, and the request is delegated to
the new region. -/
def arena_alloc (a : Arena) (size align page : Nat) : Option Nat × Arena :=
  match a.regions.getLast? with
  | none => (none, a)
  | some cur =>
    if size > usub a.region_size sizeof_region_t then (none, a)
    else if region_has_space cur size align then
      ((region_alloc cur size align).1,
       { a with regions := a.regions.dropLast ++ [(region_alloc cur size align).2] })
    else
      ((region_alloc (alloc_new_region a.region_size page) size align).1,
       { a with
           regions := a.regions ++ [(region_alloc (alloc_new_region a.region_size page) size align).2]
           region_count := a.region_count + 1 })

/-- The C function `arena_release(a)`: walks the chain, `munmap`ing every region, then sets
`start = current = NULL` and `region_count = 0`.  The first component is the
list of regions whose backing memory was released. -/
def arena_release (a : Arena) : List Region × Arena :=
  (a.regions,
   { regions := [], region_size := a.region_size, region_count := 0 })

/-- Runs a sequence of `region_alloc` calls on one region; succeeds only if
every call succeeds, returning the list of (address, size) pairs handed out
and the final region state. -/
def region_alloc_seq : Region → List (Nat × Nat) → Option (List (Nat × Nat) × Region)
  | r, [] => some ([], r)
  | r, (size, align) :: rest =>
    match region_alloc r size align with
    | (none, _) => none
    | (some addr, r1) =>
      match region_alloc_seq r1 rest with
      | none => none
      | some (pairs, rf) => some ((addr, size) :: pairs, rf)

/-- Sanity of a page address returned by `mmap` for a mapping of
`region_size` bytes: page-aligned, and the mapping lies in the user half of
the 64-bit address space. -/
def pageOK (region_size page : Nat) : Prop :=
  page % 4096 = 0 ∧ page + region_size ≤ 2 ^ 63

/-- Well-formedness of a region: the cursor lies between `begin` and
`begin + cap`, and the managed memory sits in the user half of the address
space (as any real mapping does). -/
def RegionWF (r : Region) : Prop :=
  r.begin ≤ r.free ∧ r.free ≤ r.begin + r.cap ∧ r.begin + r.cap ≤ 2 ^ 63

/-- Well-formedness of an arena: the configured region size is at least the
header size and addressable, `region_count` counts the chain, and every
region in the chain is well-formed. -/
def ArenaWF (a : Arena) : Prop :=
  sizeof_region_t ≤ a.region_size ∧ a.region_size ≤ 2 ^ 63 ∧
  a.region_count = a.regions.length ∧ ∀ r ∈ a.regions, RegionWF r

instance (rs p : Nat) : Decidable (pageOK rs p) := by
  unfold pageOK
  infer_instance

instance (r : Region) : Decidable (RegionWF r) := by
  unfold RegionWF
  infer_instance

instance (a : Arena) : Decidable (ArenaWF a) := by
  unfold ArenaWF
  infer_instance

/-- Arena states reachable through the public API, starting from
`arena_init` with a sane region size, performing `arena_alloc` calls that
respect the documented power-of-two alignment precondition, and
`arena_release`.  Page addresses supplied by the OS satisfy `pageOK`. -/
inductive Reachable : Arena → Prop where
  | init : ∀ region_size page, sizeof_region_t ≤ region_size →
      pageOK region_size page → Reachable (arena_init region_size page)
  | step : ∀ a size k page, Reachable a → k ≤ 63 →
      pageOK a.region_size page → Reachable (arena_alloc a size (2 ^ k) page).2
  | reset : ∀ a, Reachable a → Reachable (arena_release a).2

lemma wordMod_val : wordMod = 18446744073709551616 := by norm_num [wordMod]

lemma usub_small {a b : Nat} (hb : b ≤ a) (ha : a < 2 ^ 64) : usub a b = a - b := by
  have hv : (2 : Nat) ^ 64 = 18446744073709551616 := by norm_num
  unfold usub
  rw [wordMod_val]
  omega

lemma uadd_small {a b : Nat} (h : a + b < 2 ^ 64) : uadd a b = a + b := by
  have hv : (2 : Nat) ^ 64 = 18446744073709551616 := by norm_num
  unfold uadd
  rw [wordMod_val]
  omega

lemma lnot64_pow_testBit (k i : Nat) (hk : k ≤ 64) :
    (lnot64 (2 ^ k - 1)).testBit i = (decide (k ≤ i) && decide (i < 64)) := by
  have hlt : 2 ^ k - 1 < 2 ^ 64 := by
    have : (2 : Nat) ^ k ≤ 2 ^ 64 := Nat.pow_le_pow_right (by norm_num) hk
    have : (0 : Nat) < 2 ^ k := Nat.pos_pow_of_pos k (by norm_num)
    omega
  unfold lnot64 wordMod
  rw [Nat.mod_eq_of_lt hlt, Nat.testBit_xor, Nat.testBit_two_pow_sub_one,
    Nat.testBit_two_pow_sub_one]
  by_cases h1 : i < k <;> by_cases h2 : i < 64 <;> simp [h1, h2] <;> omega

lemma land_lnot_pow (y k : Nat) (hk : k ≤ 64) (hy : y < 2 ^ 64) :
    y &&& lnot64 (2 ^ k - 1) = 2 ^ k * (y / 2 ^ k) := by
  have h2 : 2 ^ k * (y / 2 ^ k) = (y >>> k) <<< k := by
    rw [Nat.shiftRight_eq_div_pow, Nat.shiftLeft_eq]
    ring
  rw [h2]
  apply Nat.eq_of_testBit_eq
  intro i
  rw [Nat.testBit_and, lnot64_pow_testBit k i hk, Nat.testBit_shiftLeft,
    Nat.testBit_shiftRight]
  by_cases h1 : k ≤ i
  · by_cases hi : i < 64
    · have hki : k + (i - k) = i := by omega
      simp [h1, hi, hki, ge_iff_le]
    · have hbit : y.testBit i = false :=
        Nat.testBit_lt_two_pow
          (lt_of_lt_of_le hy (Nat.pow_le_pow_right (by norm_num) (by omega)))
      have hki : k + (i - k) = i := by omega
      simp [h1, hi, hki, hbit, ge_iff_le]
  · simp [h1, ge_iff_le]

lemma align_up_pow2 (addr k : Nat) (hk : k ≤ 63) (h : addr + 2 ^ k ≤ 2 ^ 64) :
    align_up addr (2 ^ k) = 2 ^ k * ((addr + (2 ^ k - 1)) / 2 ^ k) := by
  have hpos : (0 : Nat) < 2 ^ k := Nat.pos_pow_of_pos k (by norm_num)
  have hklt : (2 : Nat) ^ k ≤ 2 ^ 63 := Nat.pow_le_pow_right (by norm_num) hk
  have h63 : (2 : Nat) ^ 63 < 2 ^ 64 := by norm_num
  have h1 : usub (2 ^ k) 1 = 2 ^ k - 1 := usub_small (by omega) (by omega)
  have h2 : uadd addr (2 ^ k - 1) = addr + (2 ^ k - 1) := uadd_small (by omega)
  unfold align_up
  rw [h1, h2]
  exact land_lnot_pow _ k (by omega) (by omega)

lemma align_up_ge (addr k : Nat) (hk : k ≤ 63) (h : addr + 2 ^ k ≤ 2 ^ 64) :
    addr ≤ align_up addr (2 ^ k) := by
  rw [align_up_pow2 addr k hk h]
  have hpos : (0 : Nat) < 2 ^ k := Nat.pos_pow_of_pos k (by norm_num)
  have key := Nat.div_add_mod (addr + (2 ^ k - 1)) (2 ^ k)
  have hlt : (addr + (2 ^ k - 1)) % 2 ^ k < 2 ^ k := Nat.mod_lt _ hpos
  generalize hX : 2 ^ k * ((addr + (2 ^ k - 1)) / 2 ^ k) = X at key ⊢
  omega

lemma align_up_le (addr k : Nat) (hk : k ≤ 63) (h : addr + 2 ^ k ≤ 2 ^ 64) :
    align_up addr (2 ^ k) ≤ addr + (2 ^ k - 1) := by
  rw [align_up_pow2 addr k hk h]
  have hpos : (0 : Nat) < 2 ^ k := Nat.pos_pow_of_pos k (by norm_num)
  have key := Nat.div_add_mod (addr + (2 ^ k - 1)) (2 ^ k)
  generalize hX : 2 ^ k * ((addr + (2 ^ k - 1)) / 2 ^ k) = X at key ⊢
  omega

lemma align_up_dvd (addr k : Nat) (hk : k ≤ 63) (h : addr + 2 ^ k ≤ 2 ^ 64) :
    2 ^ k ∣ align_up addr (2 ^ k) := by
  rw [align_up_pow2 addr k hk h]
  exact Dvd.intro _ rfl

lemma align_up_le_of_dvd (addr k M : Nat) (hk : k ≤ 63) (h : addr + 2 ^ k ≤ 2 ^ 64)
    (hd : 2 ^ k ∣ M) (hM : addr ≤ M) : align_up addr (2 ^ k) ≤ M := by
  rw [align_up_pow2 addr k hk h]
  obtain ⟨c, rfl⟩ := hd
  have hpos : (0 : Nat) < 2 ^ k := Nat.pos_pow_of_pos k (by norm_num)
  have hq : (addr + (2 ^ k - 1)) / 2 ^ k ≤ c := by
    have h1 : addr + (2 ^ k - 1) ≤ 2 ^ k * c + (2 ^ k - 1) := by omega
    have h2 : (addr + (2 ^ k - 1)) / 2 ^ k ≤ (2 ^ k * c + (2 ^ k - 1)) / 2 ^ k :=
      Nat.div_le_div_right h1
    have h3 : (2 ^ k * c + (2 ^ k - 1)) / 2 ^ k = c + (2 ^ k - 1) / 2 ^ k :=
      Nat.mul_add_div hpos c (2 ^ k - 1)
    have h4 : (2 ^ k - 1) / 2 ^ k = 0 := Nat.div_eq_of_lt (by omega)
    omega
  calc 2 ^ k * ((addr + (2 ^ k - 1)) / 2 ^ k) ≤ 2 ^ k * c :=
        Nat.mul_le_mul_left _ hq
    _ = 2 ^ k * c := rfl

lemma align_up_of_dvd (addr k : Nat) (hk : k ≤ 63) (h : addr + 2 ^ k ≤ 2 ^ 64)
    (hd : 2 ^ k ∣ addr) : align_up addr (2 ^ k) = addr :=
  le_antisymm (align_up_le_of_dvd addr k addr hk h hd le_rfl)
    (align_up_ge addr k hk h)

lemma region_alloc_fail_snd {r : Region} {size align : Nat}
    (h : (region_alloc r size align).1 = none) :
    (region_alloc r size align).2 = r := by
  simp only [region_alloc] at h ⊢
  by_cases hc : (align_up r.free align + size) % wordMod > (r.begin + r.cap) % wordMod
  · rw [if_pos hc]
  · rw [if_neg hc] at h
    simp at h

lemma region_alloc_begin (r : Region) (size align : Nat) :
    (region_alloc r size align).2.begin = r.begin := by
  simp only [region_alloc]
  split <;> rfl

lemma region_alloc_cap (r : Region) (size align : Nat) :
    (region_alloc r size align).2.cap = r.cap := by
  simp only [region_alloc]
  split <;> rfl

lemma region_has_space_iff (r : Region) (size align : Nat) :
    region_has_space r size align = true ↔
      ((region_alloc r size align).1.isSome = true) := by
  simp only [region_has_space, region_alloc]
  split <;> simp

lemma region_alloc_succ {r : Region} {size k addr : Nat} (hk : k ≤ 63)
    (hs : size < 2 ^ 63) (hfree : r.free ≤ 2 ^ 63)
    (hsucc : (region_alloc r size (2 ^ k)).1 = some addr) :
    addr = align_up r.free (2 ^ k) ∧ r.free ≤ addr ∧ addr ≤ 2 ^ 63 ∧
    2 ^ k ∣ addr ∧
    (region_alloc r size (2 ^ k)).2 = { r with free := addr + size } ∧
    (r.begin + r.cap ≤ 2 ^ 63 → addr + size ≤ r.begin + r.cap) := by
  have h63 : (2 : Nat) ^ 63 + 2 ^ 63 = 2 ^ 64 := by norm_num
  have hklt : (2 : Nat) ^ k ≤ 2 ^ 63 := Nat.pow_le_pow_right (by norm_num) hk
  have hnw : r.free + 2 ^ k ≤ 2 ^ 64 := by omega
  have hge := align_up_ge r.free k hk hnw
  have hle63 := align_up_le_of_dvd r.free k (2 ^ 63) hk hnw
    (pow_dvd_pow 2 hk) hfree
  have hdvd := align_up_dvd r.free k hk hnw
  simp only [region_alloc] at hsucc ⊢
  split at hsucc
  · simp at hsucc
  · rename_i hcond
    simp only at hsucc
    have haddr : addr = align_up r.free (2 ^ k) := by
      simpa using hsucc.symm
    subst haddr
    set start := align_up r.free (2 ^ k) with hstart
    have hoff : usub start r.free = start - r.free := usub_small hge (by omega)
    have hfree' : (r.free + usub start r.free + size) % wordMod = start + size := by
      rw [hoff, wordMod_val]
      omega
    refine ⟨rfl, hge, hle63, hdvd, ?_, ?_⟩
    · rw [if_neg hcond]
      simp only [hfree']
    · intro hcap
      rw [not_lt] at hcond
      have hl : (start + size) % wordMod = start + size := by
        rw [wordMod_val]; omega
      have hr : (r.begin + r.cap) % wordMod = r.begin + r.cap := by
        rw [wordMod_val]; omega
      rw [hl, hr] at hcond
      exact hcond

lemma region_alloc_free_mono {r : Region} {size k : Nat} (hk : k ≤ 63)
    (hs : size < 2 ^ 63) (hfree : r.free ≤ 2 ^ 63) :
    r.free ≤ (region_alloc r size (2 ^ k)).2.free := by
  cases hres : (region_alloc r size (2 ^ k)).1 with
  | none => rw [region_alloc_fail_snd hres]
  | some addr =>
    obtain ⟨_, h2, _, _, h5, _⟩ := region_alloc_succ hk hs hfree hres
    rw [h5]
    simp only
    omega

lemma region_alloc_wf {r : Region} {size k : Nat} (hk : k ≤ 63)
    (hs : size < 2 ^ 63) (hwf : RegionWF r) :
    RegionWF (region_alloc r size (2 ^ k)).2 := by
  obtain ⟨hw1, hw2, hw3⟩ := hwf
  cases hres : (region_alloc r size (2 ^ k)).1 with
  | none => rw [region_alloc_fail_snd hres]; exact ⟨hw1, hw2, hw3⟩
  | some addr =>
    obtain ⟨_, h2, _, _, h5, h6⟩ := region_alloc_succ hk hs (le_trans hw2 hw3) hres
    rw [h5]
    exact ⟨by simp only; omega, by simp only; exact h6 hw3, by simp only; omega⟩

lemma alloc_new_region_eq {rs page : Nat} (h32 : sizeof_region_t ≤ rs)
    (hp : page + rs ≤ 2 ^ 63) :
    alloc_new_region rs page =
      { cap := rs - sizeof_region_t
        free := page + sizeof_region_t
        begin := page + sizeof_region_t } := by
  have h63 : (2 : Nat) ^ 63 < 2 ^ 64 := by norm_num
  have hsz : sizeof_region_t = 32 := rfl
  have h1 : uadd page sizeof_region_t = page + sizeof_region_t :=
    uadd_small (by omega)
  have h2 : usub (page + sizeof_region_t) page = sizeof_region_t := by
    rw [usub_small (by omega) (by omega)]
    omega
  have h3 : usub rs sizeof_region_t = rs - sizeof_region_t :=
    usub_small h32 (by omega)
  simp only [alloc_new_region, region_init, h1, h2, h3]

lemma alloc_new_region_wf {rs page : Nat} (h32 : sizeof_region_t ≤ rs)
    (hp : page + rs ≤ 2 ^ 63) : RegionWF (alloc_new_region rs page) := by
  rw [alloc_new_region_eq h32 hp]
  refine ⟨le_rfl, by simp only; omega, by simp only; omega⟩

lemma usub_header {rs : Nat} (h32 : sizeof_region_t ≤ rs) (hrs : rs ≤ 2 ^ 63) :
    usub rs sizeof_region_t = rs - sizeof_region_t := by
  have h63 : (2 : Nat) ^ 63 < 2 ^ 64 := by norm_num
  exact usub_small h32 (by omega)

lemma reachable_wf {a : Arena} (h : Reachable a) : ArenaWF a := by
  induction h with
  | init rs page h32 hp =>
    simp only [ArenaWF, arena_init]
    refine ⟨h32, by have := hp.2; omega, rfl, ?_⟩
    intro r hr
    rw [List.mem_singleton] at hr
    subst hr
    exact alloc_new_region_wf h32 hp.2
  | reset a _ ih =>
    exact ⟨ih.1, ih.2.1, rfl, by intro r hr; simp [arena_release] at hr⟩
  | step a size k page _ hk hp ih =>
    obtain ⟨ih1, ih2, ih3, ih4⟩ := ih
    cases hl : a.regions.getLast? with
    | none => simp only [arena_alloc, hl]; exact ⟨ih1, ih2, ih3, ih4⟩
    | some cur =>
      have hcur : cur ∈ a.regions := List.mem_of_getLast?_eq_some hl
      have hne : a.regions ≠ [] := List.ne_nil_of_mem hcur
      by_cases hbig : size > usub a.region_size sizeof_region_t
      · simp only [arena_alloc, hl, if_pos hbig]
        exact ⟨ih1, ih2, ih3, ih4⟩
      · have hsz : sizeof_region_t = 32 := rfl
        have hsize : size ≤ a.region_size - sizeof_region_t := by
          rw [usub_header ih1 ih2] at hbig
          omega
        have hs63 : size < 2 ^ 63 := by
          have h32le : (32 : Nat) ≤ 2 ^ 63 := by norm_num
          omega
        by_cases hspace : region_has_space cur size (2 ^ k)
        · simp only [arena_alloc, hl, if_neg hbig, if_pos hspace]
          refine ⟨ih1, ih2, ?_, ?_⟩
          · simp only [List.length_append, List.length_dropLast,
              List.length_singleton]
            have : 0 < a.regions.length := List.length_pos.mpr hne
            omega
          · intro r hr
            rw [List.mem_append] at hr
            rcases hr with hr | hr
            · exact ih4 r (List.dropLast_sublist a.regions |>.subset hr)
            · rw [List.mem_singleton] at hr
              subst hr
              exact region_alloc_wf hk hs63 (ih4 cur hcur)
        · simp only [arena_alloc, hl, if_neg hbig, if_neg hspace]
          refine ⟨ih1, ih2, ?_, ?_⟩
          · simp only [List.length_append, List.length_singleton]
            omega
          · intro r hr
            rw [List.mem_append] at hr
            rcases hr with hr | hr
            · exact ih4 r hr
            · rw [List.mem_singleton] at hr
              subst hr
              exact region_alloc_wf hk hs63 (alloc_new_region_wf ih1 hp.2)

lemma arena_alloc_closed_state {a : Arena} (size align page : Nat)
    (h : a.regions = []) : arena_alloc a size align page = (none, a) := by
  have hl : a.regions.getLast? = none := by rw [h]; rfl
  simp only [arena_alloc, hl]

lemma arena_alloc_too_large_state {a : Arena} (size align page : Nat)
    (h32 : sizeof_region_t ≤ a.region_size) (hrs : a.region_size ≤ 2 ^ 63)
    (hbig : a.region_size - sizeof_region_t < size) :
    arena_alloc a size align page = (none, a) := by
  cases hl : a.regions.getLast? with
  | none => simp only [arena_alloc, hl]
  | some cur =>
    have hg : size > usub a.region_size sizeof_region_t := by
      rw [usub_header h32 hrs]
      omega
    simp only [arena_alloc, hl]
    rw [if_pos hg]

lemma region_alloc_zero {r : Region} (hr1 : r.free ≤ r.begin + r.cap)
    (hr2 : r.begin + r.cap < 2 ^ 64) : region_alloc r 0 1 = (some r.free, r) := by
  have halign : align_up r.free 1 = r.free := by
    have h := align_up_of_dvd r.free 0 (by norm_num) (by norm_num; omega)
      (one_dvd _)
    norm_num at h
    exact h
  have hfw : r.free < 2 ^ 64 := by omega
  have hl : (r.free + 0) % wordMod = r.free := by rw [wordMod_val]; omega
  have hr : (r.begin + r.cap) % wordMod = r.begin + r.cap := by
    rw [wordMod_val]; omega
  have hoff : usub r.free r.free = 0 := by rw [usub_small le_rfl hfw]; omega
  have hfree : (r.free + usub r.free r.free + 0) % wordMod = r.free := by
    rw [hoff, wordMod_val]; omega
  simp only [region_alloc, halign]
  rw [if_neg (by rw [hl, hr]; omega)]
  rw [hfree]

/-- C4: for a reachable arena, a request whose `size` exceeds
`region_size - sizeof(region_t)` makes `arena_alloc` fail (NULL result) and
leaves the whole arena state — in particular `region_count` — unchanged; no
region is created. -/
theorem c4_request_too_large (a : Arena) (size align page : Nat)
    (hreach : Reachable a)
    (hbig : a.region_size - sizeof_region_t < size) :
    arena_alloc a size align page = (none, a) := by
  obtain ⟨h32, hrs, -, -⟩ := reachable_wf hreach
  exact arena_alloc_too_large_state size align page h32 hrs hbig

/-- Witness for C4 at a concrete input: `region_size = 40`, so the largest
allocatable size is `8`, and a request of `9` bytes fails with the arena
unchanged. -/
theorem c4_witness :
    arena_alloc (arena_init 40 0) 9 16 0 = (none, arena_init 40 0) :=
  c4_request_too_large (arena_init 40 0) 9 16 0
    (Reachable.init 40 0 (by decide) (by decide)) (by decide)

/-- C5: after `arena_release`, `region_count == 0`, and every subsequent
`arena_alloc` (any size, align) fails with the `ArenaClosed` early return,
producing a NULL result and leaving the released state untouched. -/
theorem c5_release_then_alloc_fails (a : Arena) (size align page : Nat) :
    (arena_release a).2.region_count = 0 ∧
    arena_alloc (arena_release a).2 size align page =
      (none, (arena_release a).2) :=
  ⟨rfl, arena_alloc_closed_state size align page rfl⟩

/-- C6: `region_has_space` returns `true` exactly when `region_alloc` on the
same region state succeeds, and both compute the same aligned candidate
address `align_up(free, align)` (the address `region_alloc` returns on
success).  In the model both are pure functions of the region value, so
`region_has_space` cannot mutate the region. -/
theorem c6_has_space_iff_alloc_succeeds (r : Region) (size align : Nat) :
    (region_has_space r size align = true ↔
      (region_alloc r size align).1.isSome = true) ∧
    (∀ addr, (region_alloc r size align).1 = some addr →
      addr = align_up r.free align) := by
  refine ⟨region_has_space_iff r size align, ?_⟩
  intro addr h
  simp only [region_alloc] at h
  split at h
  · simp at h
  · simpa using h.symm

/-- C8: releasing an already-released arena (`head`/`current` absent,
`region_count == 0`) releases no region and leaves the arena state exactly
as it was. -/
theorem c8_release_idempotent (a : Arena) (h1 : a.regions = [])
    (h2 : a.region_count = 0) : arena_release a = ([], a) := by
  cases a with
  | mk regs rs cnt =>
    simp only at h1 h2
    subst h1
    subst h2
    rfl

/-- Witness for C8: releasing a concrete already-released arena is a no-op. -/
theorem c8_witness :
    arena_release { regions := [], region_size := 4096, region_count := 0 } =
      ([], { regions := [], region_size := 4096, region_count := 0 }) :=
  c8_release_idempotent
    { regions := [], region_size := 4096, region_count := 0 } rfl rfl

/-- C9 (implicit): when `arena_alloc` returns NULL because of the
closed-arena check or the too-large check, the entire arena state (`head`,
`current`, `region_size`, `region_count`, and every region of the chain) is
exactly as before the call. -/
theorem c9_failed_checks_preserve_state (a : Arena) (size align page : Nat)
    (h : a.regions = [] ∨
      (Reachable a ∧ a.region_size - sizeof_region_t < size)) :
    (arena_alloc a size align page).1 = none ∧
    (arena_alloc a size align page).2 = a := by
  rcases h with h | ⟨hreach, hbig⟩
  · rw [arena_alloc_closed_state size align page h]
    exact ⟨rfl, rfl⟩
  · obtain ⟨h32, hrs, -, -⟩ := reachable_wf hreach
    rw [arena_alloc_too_large_state size align page h32 hrs hbig]
    exact ⟨rfl, rfl⟩

/-- Witness for C9: a closed arena rejects a request and is unchanged. -/
theorem c9_witness :
    (arena_alloc { regions := [], region_size := 4096, region_count := 0 }
        5 8 0).1 = none ∧
    (arena_alloc { regions := [], region_size := 4096, region_count := 0 }
        5 8 0).2 =
      { regions := [], region_size := 4096, region_count := 0 } :=
  c9_failed_checks_preserve_state
    { regions := [], region_size := 4096, region_count := 0 } 5 8 0
    (Or.inl rfl)

/-- C10 (implicit): a zero-size request with alignment 1 always succeeds on a
region whose cursor is in bounds, returns the current `free` cursor, and
changes nothing; on an open reachable arena, `arena_alloc(0, 1)` returns the
current region's cursor and leaves the whole arena state unchanged, so
repeated zero-size allocations all return the same address and never trigger
region growth. -/
theorem c10_zero_size_alloc (r : Region) (a : Arena) (cur : Region)
    (page : Nat) (hr1 : r.free ≤ r.begin + r.cap)
    (hr2 : r.begin + r.cap < 2 ^ 64) (ha : Reachable a)
    (hcur : a.regions.getLast? = some cur) :
    region_alloc r 0 1 = (some r.free, r) ∧
    arena_alloc a 0 1 page = (some cur.free, a) := by
  refine ⟨region_alloc_zero hr1 hr2, ?_⟩
  obtain ⟨h32, hrs, -, hregs⟩ := reachable_wf ha
  obtain ⟨hc1, hc2, hc3⟩ := hregs cur (List.mem_of_getLast?_eq_some hcur)
  have h63 : (2 : Nat) ^ 63 < 2 ^ 64 := by norm_num
  have hcz : region_alloc cur 0 1 = (some cur.free, cur) :=
    region_alloc_zero hc2 (by omega)
  have hbig : ¬ (0 > usub a.region_size sizeof_region_t) := by omega
  have hspace : region_has_space cur 0 1 = true := by
    rw [region_has_space_iff, hcz]
    rfl
  obtain ⟨ys, hys⟩ := List.getLast?_eq_some_iff.mp hcur
  simp only [arena_alloc, hcur, if_neg hbig, if_pos hspace, hcz]
  rw [hys, List.dropLast_concat, ← hys]

/-- Witness for C10 at concrete inputs: a partially filled region and the
freshly created arena `arena_init 40 0` whose current region is
`{cap 8, free 32, begin 32}`. -/
theorem c10_witness :
    region_alloc { cap := 8, free := 40, begin := 32 } 0 1 =
      (some ({ cap := 8, free := 40, begin := 32 } : Region).free,
        { cap := 8, free := 40, begin := 32 }) ∧
    arena_alloc (arena_init 40 0) 0 1 0 =
      (some ({ cap := 8, free := 32, begin := 32 } : Region).free,
        arena_init 40 0) :=
  c10_zero_size_alloc { cap := 8, free := 40, begin := 32 } (arena_init 40 0)
    { cap := 8, free := 32, begin := 32 } 0 (by decide) (by decide)
    (Reachable.init 40 0 (by decide) (by decide)) (by decide)

/-- C1: on a reachable arena, a successful `arena_alloc` with power-of-two
alignment and `size ≤ region_size - sizeof(region_t)` returns an address `a`
with `a mod align == 0` whose block `[a, a + size)` lies entirely inside the
owning region's `[begin, begin + cap)`. -/
theorem c1_alloc_aligned_within_region (a : Arena) (size k page addr : Nat)
    (hk : k ≤ 63) (ha : Reachable a) (hp : pageOK a.region_size page)
    (hsize : size ≤ a.region_size - sizeof_region_t)
    (hsucc : (arena_alloc a size (2 ^ k) page).1 = some addr) :
    addr % 2 ^ k = 0 ∧
    ∃ r ∈ (arena_alloc a size (2 ^ k) page).2.regions,
      r.begin ≤ addr ∧ addr + size ≤ r.begin + r.cap := by
  obtain ⟨h32, hrs, -, hregs⟩ := reachable_wf ha
  have hsz : sizeof_region_t = 32 := rfl
  have h32le : (32 : Nat) ≤ 2 ^ 63 := by norm_num
  have hs63 : size < 2 ^ 63 := by omega
  cases hl : a.regions.getLast? with
  | none =>
    rw [arena_alloc_closed_state size (2 ^ k) page
      (List.getLast?_eq_none_iff.mp hl)] at hsucc
    simp at hsucc
  | some cur =>
    obtain ⟨hc1, hc2, hc3⟩ := hregs cur (List.mem_of_getLast?_eq_some hl)
    have hbig : ¬ (size > usub a.region_size sizeof_region_t) := by
      rw [usub_header h32 hrs]
      omega
    by_cases hspace : region_has_space cur size (2 ^ k)
    · simp only [arena_alloc, hl, if_neg hbig, if_pos hspace] at hsucc ⊢
      obtain ⟨-, hge, -, hdvd, hsnd, hbound⟩ :=
        region_alloc_succ hk hs63 (le_trans hc2 hc3) hsucc
      refine ⟨Nat.mod_eq_zero_of_dvd hdvd,
        (region_alloc cur size (2 ^ k)).2, ?_, ?_, ?_⟩
      · exact List.mem_append_right _ (List.mem_singleton.mpr rfl)
      · rw [region_alloc_begin]
        omega
      · rw [region_alloc_begin, region_alloc_cap]
        exact hbound hc3
    · simp only [arena_alloc, hl, if_neg hbig, if_neg hspace] at hsucc ⊢
      have hwfn : RegionWF (alloc_new_region a.region_size page) :=
        alloc_new_region_wf h32 hp.2
      obtain ⟨hn1, hn2, hn3⟩ := hwfn
      obtain ⟨-, hge, -, hdvd, hsnd, hbound⟩ :=
        region_alloc_succ hk hs63 (le_trans hn2 hn3) hsucc
      refine ⟨Nat.mod_eq_zero_of_dvd hdvd,
        (region_alloc (alloc_new_region a.region_size page) size (2 ^ k)).2,
        ?_, ?_, ?_⟩
      · exact List.mem_append_right _ (List.mem_singleton.mpr rfl)
      · rw [region_alloc_begin]
        omega
      · rw [region_alloc_begin, region_alloc_cap]
        exact hbound hn3

/-- Witness for C1: in the fresh arena `arena_init 4096 0` an 8-byte
8-aligned request returns address 32, which is aligned and lies inside the
region `[32, 4096)`. -/
theorem c1_witness :
    (32 : Nat) % 2 ^ 3 = 0 ∧
    ∃ r ∈ (arena_alloc (arena_init 4096 0) 8 (2 ^ 3) 4096).2.regions,
      r.begin ≤ 32 ∧ 32 + 8 ≤ r.begin + r.cap :=
  c1_alloc_aligned_within_region (arena_init 4096 0) 8 3 4096 32 (by decide)
    (Reachable.init 4096 0 (by decide) (by decide)) (by decide) (by decide)
    (by decide)

/-- Counterexample to C2 as stated: in the reachable arena
`arena_init 40 0` (one region, `cap = 8`, `begin = free = 32`), the request
`size = 1`, `align = 64 = 2^6` satisfies the claim's hypotheses
(power-of-two alignment, `size ≤ region_size - sizeof(region_t)`) and the
current region lacks space, so the growth path runs — `region_count` becomes
2 — but the delegated allocation in the new region (page 4096, so
`begin = free = 4128`, `cap = 8`) also fails: `align_up(4128, 64) = 4160`
and `4160 + 1 > 4136`.  The claim's "this second delegation cannot fail"
is false. -/
theorem c2_counterexample :
    Reachable (arena_init 40 0) ∧
    (64 : Nat) = 2 ^ 6 ∧
    (1 : Nat) ≤ (arena_init 40 0).region_size - sizeof_region_t ∧
    (arena_init 40 0).regions.getLast? =
      some { cap := 8, free := 32, begin := 32 } ∧
    region_has_space { cap := 8, free := 32, begin := 32 } 1 64 = false ∧
    (arena_alloc (arena_init 40 0) 1 64 4096).1 = none ∧
    (arena_alloc (arena_init 40 0) 1 64 4096).2.region_count = 2 :=
  ⟨Reachable.init 40 0 (by decide) (by decide), by decide, by decide,
    by decide, by decide, by decide, by decide⟩

/-- C2 (amended): under the claim's hypotheses, when the current region
lacks space `arena_alloc` creates exactly one new region and increments
`region_count` by exactly 1 — and the delegated allocation in the new region
succeeds and lies entirely within it provided additionally that `align`
divides `sizeof(region_t)` (i.e. `align ≤ 32`), so that the aligned start in
a fresh region is its `begin` cursor.  (Without that proviso the delegation
can fail, see the counterexample.) -/
theorem c2_growth_amended (a : Arena) (cur : Region) (size k page : Nat)
    (ha : Reachable a) (hcur : a.regions.getLast? = some cur) (hk : k ≤ 5)
    (hsize : size ≤ a.region_size - sizeof_region_t)
    (hp : pageOK a.region_size page)
    (hspace : region_has_space cur size (2 ^ k) = false) :
    (arena_alloc a size (2 ^ k) page).2.region_count = a.region_count + 1 ∧
    ∃ rn, (arena_alloc a size (2 ^ k) page).2.regions = a.regions ++ [rn] ∧
      (arena_alloc a size (2 ^ k) page).1 = some (page + sizeof_region_t) ∧
      rn.begin ≤ page + sizeof_region_t ∧
      page + sizeof_region_t + size ≤ rn.begin + rn.cap := by
  obtain ⟨h32, hrs, -, -⟩ := reachable_wf ha
  have hsz : sizeof_region_t = 32 := rfl
  have h63 : (2 : Nat) ^ 63 < 2 ^ 64 := by norm_num
  have hp2 := hp.2
  have hbig : ¬ (size > usub a.region_size sizeof_region_t) := by
    rw [usub_header h32 hrs]
    omega
  have hk32 : (2 : Nat) ^ k ∣ 32 := by
    have h := pow_dvd_pow 2 hk
    norm_num at h
    exact h
  have hkpage : (2 : Nat) ^ k ∣ page := by
    have h4096 : (4096 : Nat) ∣ page := Nat.dvd_of_mod_eq_zero hp.1
    have h := pow_dvd_pow 2 (le_trans hk (by norm_num : (5 : Nat) ≤ 12))
    norm_num at h
    exact dvd_trans h h4096
  have hkle : (2 : Nat) ^ k ≤ 32 := by
    have h := Nat.pow_le_pow_right (by norm_num : 1 ≤ 2) hk
    norm_num at h
    exact h
  have hnew := alloc_new_region_eq h32 hp.2
  have halign : align_up (page + sizeof_region_t) (2 ^ k) =
      page + sizeof_region_t := by
    refine align_up_of_dvd _ k (by omega) (by omega) ?_
    rw [hsz]
    exact Nat.dvd_add hkpage hk32
  have hcond : ¬ ((page + sizeof_region_t + size) % wordMod >
      (page + sizeof_region_t + (a.region_size - sizeof_region_t)) %
        wordMod) := by
    have hl : (page + sizeof_region_t + size) % wordMod =
        page + sizeof_region_t + size := by rw [wordMod_val]; omega
    have hr : (page + sizeof_region_t +
        (a.region_size - sizeof_region_t)) % wordMod =
        page + sizeof_region_t + (a.region_size - sizeof_region_t) := by
      rw [wordMod_val]; omega
    rw [hl, hr]
    omega
  have hoff : usub (page + sizeof_region_t) (page + sizeof_region_t) = 0 := by
    rw [usub_small le_rfl (by omega)]
    omega
  have hfree : (page + sizeof_region_t + 0 + size) % wordMod =
      page + sizeof_region_t + size := by
    rw [wordMod_val]
    omega
  have hralloc : region_alloc (alloc_new_region a.region_size page) size
      (2 ^ k) =
      (some (page + sizeof_region_t),
        { cap := a.region_size - sizeof_region_t
          free := page + sizeof_region_t + size
          begin := page + sizeof_region_t }) := by
    rw [hnew]
    simp only [region_alloc, halign]
    rw [if_neg hcond]
    simp only [hoff, hfree]
  have hspace' : ¬ (region_has_space cur size (2 ^ k) = true) := by
    rw [hspace]
    simp
  have harena : arena_alloc a size (2 ^ k) page =
      (some (page + sizeof_region_t),
       { a with
           regions := a.regions ++
             [{ cap := a.region_size - sizeof_region_t
                free := page + sizeof_region_t + size
                begin := page + sizeof_region_t }]
           region_count := a.region_count + 1 }) := by
    simp only [arena_alloc, hcur, if_neg hbig, if_neg hspace', hralloc]
  rw [harena]
  refine ⟨rfl, _, rfl, rfl, le_rfl, ?_⟩
  simp only
  omega

/-- Witness for C2 (amended): in `arena_init 40 0`, after an 8-byte request
fills the only region, a second 8-byte 1-aligned request triggers growth
into the page at 4096 and succeeds at address 4128. -/
theorem c2_witness :
    (arena_alloc (arena_alloc (arena_init 40 0) 8 (2 ^ 0) 0).2 8 (2 ^ 0)
        4096).2.region_count =
      (arena_alloc (arena_init 40 0) 8 (2 ^ 0) 0).2.region_count + 1 ∧
    ∃ rn, (arena_alloc (arena_alloc (arena_init 40 0) 8 (2 ^ 0) 0).2 8
        (2 ^ 0) 4096).2.regions =
        (arena_alloc (arena_init 40 0) 8 (2 ^ 0) 0).2.regions ++ [rn] ∧
      (arena_alloc (arena_alloc (arena_init 40 0) 8 (2 ^ 0) 0).2 8 (2 ^ 0)
          4096).1 = some (4096 + sizeof_region_t) ∧
      rn.begin ≤ 4096 + sizeof_region_t ∧
      4096 + sizeof_region_t + 8 ≤ rn.begin + rn.cap :=
  c2_growth_amended (arena_alloc (arena_init 40 0) 8 (2 ^ 0) 0).2
    { cap := 8, free := 40, begin := 32 } 8 0 4096
    (Reachable.step (arena_init 40 0) 8 0 0
      (Reachable.init 40 0 (by decide) (by decide)) (by decide) (by decide))
    (by decide) (by decide) (by decide) (by decide) (by decide)

lemma region_alloc_seq_spec :
    ∀ (reqs : List (Nat × Nat)) (r : Region) (pairs : List (Nat × Nat))
      (rf : Region),
      region_alloc_seq r reqs = some (pairs, rf) → RegionWF r →
      (∀ q ∈ reqs, (∃ k, k ≤ 63 ∧ q.2 = 2 ^ k) ∧ q.1 < 2 ^ 63) →
      RegionWF rf ∧ r.free ≤ rf.free ∧
      (∀ p ∈ pairs, r.free ≤ p.1 ∧ p.1 + p.2 ≤ rf.free) ∧
      pairs.Pairwise (fun p q => p.1 + p.2 ≤ q.1) := by
  intro reqs
  induction reqs with
  | nil =>
    intro r pairs rf hrun hwf _
    simp only [region_alloc_seq, Option.some.injEq, Prod.mk.injEq] at hrun
    obtain ⟨h1, h2⟩ := hrun
    subst h1
    subst h2
    exact ⟨hwf, le_rfl, by simp, by simp⟩
  | cons hd rest ih =>
    intro r pairs rf hrun hwf hreqs
    obtain ⟨s, al⟩ := hd
    obtain ⟨⟨k, hk, hal⟩, hs⟩ := hreqs (s, al) (List.mem_cons_self _ _)
    subst hal
    simp only [region_alloc_seq] at hrun
    cases hres : region_alloc r s (2 ^ k) with
    | mk o r1 =>
      rw [hres] at hrun
      cases o with
      | none => simp at hrun
      | some addr =>
        simp only at hrun
        cases hrun2 : region_alloc_seq r1 rest with
        | none => rw [hrun2] at hrun; simp at hrun
        | some pr =>
          obtain ⟨ps, rf'⟩ := pr
          rw [hrun2] at hrun
          simp only [Option.some.injEq, Prod.mk.injEq] at hrun
          obtain ⟨hpairs, hrf⟩ := hrun
          subst hpairs
          subst hrf
          obtain ⟨hw1, hw2, hw3⟩ := hwf
          obtain ⟨-, hge, -, -, hsnd, hbound⟩ :=
            region_alloc_succ hk hs (le_trans hw2 hw3)
              (by rw [hres])
          rw [hres] at hsnd
          have hr1 : r1 = { r with free := addr + s } := hsnd
          subst hr1
          have hwf1 : RegionWF { r with free := addr + s } :=
            ⟨by simp only; omega, by simp only; exact hbound hw3,
              by simp only; omega⟩
          obtain ⟨ih1, ih2, ih3, ih4⟩ := ih _ ps rf' hrun2 hwf1
            (fun q hq => hreqs q (List.mem_cons_of_mem _ hq))
          simp only at ih2 ih3
          refine ⟨ih1, by omega, ?_, ?_⟩
          · intro p hp
            rcases List.mem_cons.mp hp with hp | hp
            · subst hp
              exact ⟨hge, by omega⟩
            · obtain ⟨hp1, hp2⟩ := ih3 p hp
              exact ⟨by omega, hp2⟩
          · refine List.Pairwise.cons ?_ ih4
            intro p hp
            have := (ih3 p hp).1
            omega

/-- Counterexample to C3 as stated: on the fresh region produced by
`alloc_new_region 4096 4096` (`begin = free = 4128`, `cap = 4064`), the two
calls `region_alloc(2^64 - 64, 1)` and `region_alloc(1, 1)` both succeed
(alignment 1 = 2^0 is a power of two), returning addresses 4128 and then
4064: the first call's `start + size` and cursor update wrap modulo 2^64,
moving `free` backwards, so the returned addresses are not in non-decreasing
order. -/
theorem c3_counterexample :
    (region_alloc_seq (alloc_new_region 4096 4096)
        [(2 ^ 64 - 64, 1), (1, 1)]).map (fun x => x.1.map Prod.fst) =
      some [4128, 4064] ∧
    ¬ (4128 : Nat) ≤ 4064 ∧ (1 : Nat) = 2 ^ 0 := by decide

/-- C3 (amended): for a sequence of successful `region_alloc` calls on one
still-open region, the returned intervals are pairwise non-overlapping and
the addresses non-decreasing, provided the region is well-formed (cursor in
bounds, mapping in the lower half of the address space) and each request is
small enough not to wrap 64-bit arithmetic (`size < 2^63`, power-of-two
`align ≤ 2^63`).  Without the no-wrap proviso the property fails, see the
counterexample. -/
theorem c3_seq_disjoint_sorted_amended (reqs : List (Nat × Nat)) (r : Region)
    (pairs : List (Nat × Nat)) (rf : Region) (hwf : RegionWF r)
    (hreqs : ∀ q ∈ reqs, (∃ k, k ≤ 63 ∧ q.2 = 2 ^ k) ∧ q.1 < 2 ^ 63)
    (hrun : region_alloc_seq r reqs = some (pairs, rf)) :
    pairs.Pairwise (fun p q =>
      p.1 ≤ q.1 ∧ (p.1 + p.2 ≤ q.1 ∨ q.1 + q.2 ≤ p.1)) := by
  obtain ⟨-, -, -, h4⟩ := region_alloc_seq_spec reqs r pairs rf hrun hwf hreqs
  exact h4.imp (fun h => ⟨by omega, Or.inl h⟩)

/-- Witness for C3 (amended): two small aligned requests on the fresh region
at page 0 return the ordered, disjoint blocks `[32, 40)` and `[40, 44)`. -/
theorem c3_witness :
    ([(32, 8), (40, 4)] : List (Nat × Nat)).Pairwise (fun p q =>
      p.1 ≤ q.1 ∧ (p.1 + p.2 ≤ q.1 ∨ q.1 + q.2 ≤ p.1)) :=
  c3_seq_disjoint_sorted_amended [(8, 8), (4, 4)] (alloc_new_region 4096 0)
    [(32, 8), (40, 4)] { cap := 4064, free := 44, begin := 32 } (by decide)
    (by
      intro q hq
      rcases List.mem_cons.mp hq with h | h
      · subst h
        exact ⟨⟨3, by norm_num, by norm_num⟩, by norm_num⟩
      · rw [List.mem_singleton] at h
        subst h
        exact ⟨⟨2, by norm_num, by norm_num⟩, by norm_num⟩)
    (by decide)

/-- Counterexample to C7 as stated: on the fresh region produced by
`alloc_new_region 4096 4096`, the single call `region_alloc(2^64 - 64, 1)`
succeeds (returning 4128) yet moves `free` backwards from 4128 to 4064 via
64-bit wraparound, breaking both monotonicity of `free` and the invariant
`begin ≤ free`. -/
theorem c7_counterexample :
    (region_alloc (alloc_new_region 4096 4096) (2 ^ 64 - 64) 1).1 =
      some 4128 ∧
    (alloc_new_region 4096 4096).free = 4128 ∧
    (region_alloc (alloc_new_region 4096 4096) (2 ^ 64 - 64) 1).2.free =
      4064 ∧
    ¬ ((region_alloc (alloc_new_region 4096 4096) (2 ^ 64 - 64) 1).2.begin ≤
        (region_alloc (alloc_new_region 4096 4096) (2 ^ 64 - 64) 1).2.free) := by
  decide

/-- C7 (amended): `region_init` establishes `begin ≤ free`; `region_alloc`
never changes `cap` or `begin`; and provided the call does not wrap 64-bit
arithmetic (`free ≤ 2^63`, power-of-two `align ≤ 2^63`, `size < 2^63`),
`region_alloc` never moves `free` backwards and preserves `begin ≤ free`.
Without the no-wrap proviso monotonicity fails, see the counterexample. -/
theorem c7_region_invariants_amended (c b : Nat) (r : Region) (size k : Nat)
    (hk : k ≤ 63) (hs : size < 2 ^ 63) (hfree : r.free ≤ 2 ^ 63) :
    (region_init c b).begin ≤ (region_init c b).free ∧
    r.free ≤ (region_alloc r size (2 ^ k)).2.free ∧
    (r.begin ≤ r.free →
      (region_alloc r size (2 ^ k)).2.begin ≤
        (region_alloc r size (2 ^ k)).2.free) ∧
    (region_alloc r size (2 ^ k)).2.begin = r.begin ∧
    (region_alloc r size (2 ^ k)).2.cap = r.cap := by
  have hmono := region_alloc_free_mono hk hs hfree
  refine ⟨le_rfl, hmono, ?_, region_alloc_begin r size (2 ^ k),
    region_alloc_cap r size (2 ^ k)⟩
  intro hbf
  rw [region_alloc_begin]
  omega

/-- Witness for C7 (amended) at concrete inputs: an 8-byte 8-aligned
allocation on the fresh region at page 0. -/
theorem c7_witness :
    (region_init 10 3).begin ≤ (region_init 10 3).free ∧
    (alloc_new_region 4096 0).free ≤
      (region_alloc (alloc_new_region 4096 0) 8 (2 ^ 3)).2.free ∧
    ((alloc_new_region 4096 0).begin ≤ (alloc_new_region 4096 0).free →
      (region_alloc (alloc_new_region 4096 0) 8 (2 ^ 3)).2.begin ≤
        (region_alloc (alloc_new_region 4096 0) 8 (2 ^ 3)).2.free) ∧
    (region_alloc (alloc_new_region 4096 0) 8 (2 ^ 3)).2.begin =
      (alloc_new_region 4096 0).begin ∧
    (region_alloc (alloc_new_region 4096 0) 8 (2 ^ 3)).2.cap =
      (alloc_new_region 4096 0).cap :=
  c7_region_invariants_amended 10 3 (alloc_new_region 4096 0) 8 3 (by decide)
    (by decide) (by decide)
